import Mathlib

/-!
# SignatureOf.hpp

A model of `src/SignatureOf.hpp`: the conditional inclusion of the four
signature headers, the `#undef` / `#if` / `#elif` chain that defines
`SIGNATURE_OF`, the expansion of `SIGNATURE_OF(what)` and the evaluation of
the expanded expression against the external collaborators
`SignatureToAddress` (one per game namespace) and `zSwitch`.

Conventions of the model.

* A build flag is `Option Int`: `none` when the flag is not defined, `some v`
  when it is defined with the integer value `v`. `#ifdef` tests definedness;
  inside `#if` an identifier that is not defined evaluates to `0`.
* `#if` computes in 64-bit integers. A value that does not fit is reduced
  modulo `2^64` (the compiler warns and goes on), so a flag defined as a
  non-zero multiple of `2^64` counts as `0` in the `#if` / `#elif` chain.
  For a value between `-2^63` and `2^64 - 1` the test is whether the value
  itself is zero.
* The four signature headers are external. They are recorded by name when
  they are included and are taken not to change the four flags.
* `#pragma once` only governs a repeated inclusion of the header; the model
  describes one processing of the header text.
* The external functions are given as an environment, generic in the effect
  they may have (none, a call log, failure).
* `reinterpret_cast<void*>` keeps the address value it is applied to.
-/

namespace SignatureOf

/-! ## Data model -/

/-- The four build flags tested by the header. -/
structure Flags where
  __G1 : Option Int
  __G1A : Option Int
  __G2 : Option Int
  __G2A : Option Int
  deriving DecidableEq, Repr

/-- The four game namespaces that provide a `SignatureToAddress`. -/
inductive GameNamespace where
  | Gothic_I_Classic
  | Gothic_I_Addon
  | Gothic_II_Classic
  | Gothic_II_Addon
  deriving DecidableEq, Repr

/-- The four headers named in the `#include` lines. -/
inductive Header where
  | g1_signatures
  | g1a_signatures
  | g2_signatures
  | g2a_signatures
  deriving DecidableEq, Repr

/-- The operand `#what` of the stringification operator in a macro body. -/
inductive Stringify where
  | what
  deriving DecidableEq, Repr

/-- The expressions that occur in the bodies of `SIGNATURE_OF`. The type
parameter is what stands in argument position of `SignatureToAddress`:
`Stringify` in a macro body, `String` (a string literal) after expansion. -/
inductive Expr (σ : Type) where
  | SignatureToAddress (ns : GameNamespace) (arg : σ)
  | zSwitch (a b c d : Expr σ)
  | reinterpret_cast (e : Expr σ)
  deriving DecidableEq, Repr

/-- The replacement list of a definition `#define SIGNATURE_OF(what) ...`. -/
abbrev MacroBody := Expr Stringify

/-- What the preprocessor knows that matters here: the headers included so
far and the current definition of `SIGNATURE_OF`, if any. -/
structure PPState where
  included : List Header
  SIGNATURE_OF : Option MacroBody
  deriving DecidableEq, Repr

/-! ## The preprocessor directives used by the header -/

/-- The test of `#ifdef FLAG`. -/
def ifdef (flag : Option Int) : Bool := flag.isSome

/-- The integer a flag stands for in the text of a `#if`: its value when
the flag is defined, and `0` when it is not. -/
def flagValue (flag : Option Int) : Int := flag.getD 0

/-- The width of the integers `#if` computes with (`intmax_t`, `uintmax_t`). -/
def ppBits : Nat := 64

/-- The value of a flag inside a `#if` expression, as it is evaluated: in
64 bits, so the integer the flag stands for is reduced modulo `2^64`. The
residue is given as the unsigned value; the header only tests it against
zero. -/
def ppValue (flag : Option Int) : Int := flagValue flag % 2 ^ ppBits

/-- The truth of a flag used as an operand of `&&` or as a whole `#if`
condition: its value, as evaluated, is not zero. -/
def ppTrue (flag : Option Int) : Bool := decide (ppValue flag ≠ 0)

/-- The values `#if` represents without reduction: those of `intmax_t` and
of `uintmax_t`. -/
def representable (v : Int) : Prop := -(2 ^ (ppBits - 1)) ≤ v ∧ v < 2 ^ ppBits

/-- The directive `#include "h"`. -/
def PPState.include (st : PPState) (h : Header) : PPState :=
  { st with included := st.included ++ [h] }

/-- The directive `#undef SIGNATURE_OF`. -/
def PPState.undef (st : PPState) : PPState :=
  { st with SIGNATURE_OF := none }

/-- The directive `#define SIGNATURE_OF(what) body`. -/
def PPState.define (st : PPState) (body : MacroBody) : PPState :=
  { st with SIGNATURE_OF := some body }

/-! ## The header -/

/-- The body `reinterpret_cast<void*>(NS::SignatureToAddress(#what))`. -/
def singleBody (ns : GameNamespace) : MacroBody :=
  .reinterpret_cast (.SignatureToAddress ns .what)

/-- The body of the first branch:
`reinterpret_cast<void*>(zSwitch(Gothic_I_Classic::SignatureToAddress(#what),
Gothic_I_Addon::SignatureToAddress(#what),
Gothic_II_Classic::SignatureToAddress(#what),
Gothic_II_Addon::SignatureToAddress(#what)))`. -/
def switchBody : MacroBody :=
  .reinterpret_cast
    (.zSwitch
      (.SignatureToAddress .Gothic_I_Classic .what)
      (.SignatureToAddress .Gothic_I_Addon .what)
      (.SignatureToAddress .Gothic_II_Classic .what)
      (.SignatureToAddress .Gothic_II_Addon .what))

/-- The text of `SignatureOf.hpp`, processed once with the given flags. -/
def SignatureOf_hpp (fl : Flags) (st : PPState) : PPState :=
  let st := if ifdef fl.__G1 then st.include .g1_signatures else st
  let st := if ifdef fl.__G1A then st.include .g1a_signatures else st
  let st := if ifdef fl.__G2 then st.include .g2_signatures else st
  let st := if ifdef fl.__G2A then st.include .g2a_signatures else st
  let st := st.undef
  if ppTrue fl.__G1 && ppTrue fl.__G1A && ppTrue fl.__G2 && ppTrue fl.__G2A then
    st.define switchBody
  else if ppTrue fl.__G1 then
    st.define (singleBody .Gothic_I_Classic)
  else if ppTrue fl.__G1A then
    st.define (singleBody .Gothic_I_Addon)
  else if ppTrue fl.__G2 then
    st.define (singleBody .Gothic_II_Classic)
  else if ppTrue fl.__G2A then
    st.define (singleBody .Gothic_II_Addon)
  else
    st

/-! ## Expansion of a use `SIGNATURE_OF(what)` -/

/-- Replace what stands in argument position throughout an expression. -/
def Expr.subst {σ τ : Type} (f : σ → τ) : Expr σ → Expr τ
  | .SignatureToAddress ns arg => .SignatureToAddress ns (f arg)
  | .zSwitch a b c d => .zSwitch (a.subst f) (b.subst f) (c.subst f) (d.subst f)
  | .reinterpret_cast e => .reinterpret_cast (e.subst f)

/-- The expansion of `SIGNATURE_OF(what)` for an identifier token `what`:
every `#what` of the body becomes the string literal that spells the
token. -/
def expand (body : MacroBody) (what : String) : Expr String :=
  body.subst (fun _ => what)

/-- The expansion of a use `SIGNATURE_OF(what)` in a preprocessor state;
`none` when `SIGNATURE_OF` is not defined there (the use is then left as it
is and does not compile as a resolver call). -/
def useSite (st : PPState) (what : String) : Option (Expr String) :=
  st.SIGNATURE_OF.map (fun body => expand body what)

/-- The game namespaces an expression refers to, in textual order. -/
def Expr.namespaces {σ : Type} : Expr σ → List GameNamespace
  | .SignatureToAddress ns _ => [ns]
  | .zSwitch a b c d => a.namespaces ++ b.namespaces ++ c.namespaces ++ d.namespaces
  | .reinterpret_cast e => e.namespaces

/-- Whether an expression contains a call of `zSwitch`. -/
def Expr.callsZSwitch {σ : Type} : Expr σ → Bool
  | .SignatureToAddress _ _ => false
  | .zSwitch _ _ _ _ => true
  | .reinterpret_cast e => e.callsZSwitch

/-! ## Evaluation of the expanded expression -/

/-- An address value. -/
abbrev Addr := Nat

/-- An order in which the four arguments of the `zSwitch` call are
evaluated. The language leaves the order to the compiler; each argument is
evaluated once, and all of them before the call. -/
structure ArgOrder where
  order : List (Fin 4)
  complete : order.Perm [0, 1, 2, 3]

/-- Left-to-right evaluation of the arguments. -/
def ArgOrder.leftToRight : ArgOrder := ⟨[0, 1, 2, 3], List.Perm.refl _⟩

/-- Right-to-left evaluation of the arguments. -/
def ArgOrder.rightToLeft : ArgOrder := ⟨[3, 2, 1, 0], by decide⟩

/-- The external collaborators, with effects in `m`, and the argument order
chosen by the compiler. -/
structure Env (m : Type → Type) where
  SignatureToAddress : GameNamespace → String → m Addr
  zSwitch : Addr → Addr → Addr → Addr → m Addr
  argOrder : ArgOrder

/-- Run the argument computations in the listed order, storing each value in
its argument slot. -/
def evalArgs {m : Type → Type} [Monad m] (acts : Fin 4 → m Addr) :
    List (Fin 4) → (Fin 4 → Addr) → m (Fin 4 → Addr)
  | [], vals => pure vals
  | i :: rest, vals => do
      let v ← acts i
      evalArgs acts rest (Function.update vals i v)

/-- Pick one of four things by argument position. -/
def pick4 {α : Type} (a b c d : α) (i : Fin 4) : α :=
  match i with
  | 0 => a
  | 1 => b
  | 2 => c
  | 3 => d

/-- Evaluation of an expanded expression. A resolver call passes its string
literal to the namespace's `SignatureToAddress`; a `zSwitch` call evaluates
its four arguments in the order of the environment and then calls `zSwitch`
on the four values; the cast keeps the value. -/
def eval {m : Type → Type} [Monad m] (env : Env m) : Expr String → m Addr
  | .SignatureToAddress ns s => env.SignatureToAddress ns s
  | .zSwitch a b c d => do
      let vals ← evalArgs (pick4 (eval env a) (eval env b) (eval env c) (eval env d))
        env.argOrder.order (fun _ => 0)
      env.zSwitch (vals 0) (vals 1) (vals 2) (vals 3)
  | .reinterpret_cast e => eval env e

/-! ## Effect models for the external collaborators -/

/-- A call of an external collaborator, as recorded by instrumented stubs. -/
inductive Event where
  | resolve (ns : GameNamespace) (name : String)
  | zSwitch (a b c d : Addr)
  deriving DecidableEq, Repr

/-- Computations that append to a log of calls. -/
def Traced (α : Type) : Type := List Event → α × List Event

instance : Monad Traced where
  pure a := fun log => (a, log)
  bind x f := fun log => f (x log).1 (x log).2

/-- Instrumented stubs: every resolver and `zSwitch` records its call and
then returns the value of the given pure function. -/
def instrumented (r : GameNamespace → String → Addr)
    (z : Addr → Addr → Addr → Addr → Addr) (o : ArgOrder) : Env Traced where
  SignatureToAddress ns name := fun log => (r ns name, log ++ [Event.resolve ns name])
  zSwitch a b c d := fun log => (z a b c d, log ++ [Event.zSwitch a b c d])
  argOrder := o

/-- Collaborators without effects: pure functions of their arguments. -/
def pureEnv (r : GameNamespace → String → Addr)
    (z : Addr → Addr → Addr → Addr → Addr) (o : ArgOrder) : Env Id where
  SignatureToAddress ns name := r ns name
  zSwitch a b c d := z a b c d
  argOrder := o

/-- Collaborators where a resolver returns an address or fails with an
error of type `ε`, and `zSwitch` is total. -/
def fallibleEnv {ε : Type} (r : GameNamespace → String → Except ε Addr)
    (z : Addr → Addr → Addr → Addr → Addr) (o : ArgOrder) : Env (Except ε) where
  SignatureToAddress ns name := r ns name
  zSwitch a b c d := .ok (z a b c d)
  argOrder := o

/-! ## Vocabulary of the specification -/

/-- The flag that belongs to a game namespace. -/
def flagOf (fl : Flags) : GameNamespace → Option Int
  | .Gothic_I_Classic => fl.__G1
  | .Gothic_I_Addon => fl.__G1A
  | .Gothic_II_Classic => fl.__G2
  | .Gothic_II_Addon => fl.__G2A

/-- The signatures header that belongs to a game namespace. -/
def headerOf : GameNamespace → Header
  | .Gothic_I_Classic => .g1_signatures
  | .Gothic_I_Addon => .g1a_signatures
  | .Gothic_II_Classic => .g2_signatures
  | .Gothic_II_Addon => .g2a_signatures

/-- The namespaces in the priority order `__G1`, `__G1A`, `__G2`, `__G2A`. -/
def priorityOrder : List GameNamespace :=
  [.Gothic_I_Classic, .Gothic_I_Addon, .Gothic_II_Classic, .Gothic_II_Addon]

/-- The namespace at an argument position of the `zSwitch` call. -/
def namespaceAt (i : Fin 4) : GameNamespace :=
  pick4 .Gothic_I_Classic .Gothic_I_Addon .Gothic_II_Classic .Gothic_II_Addon i

/-- The namespaces whose flag is set, that is, has a non-zero value as
`#if` evaluates it, in priority order. For a representable value this is
whether the value the flag is defined as is non-zero. -/
def setFlags (fl : Flags) : List GameNamespace :=
  priorityOrder.filter (fun ns => decide (ppValue (flagOf fl ns) ≠ 0))

/-- The single-target configuration for `k`: only the flag of `k` is set
(the other flags are undefined or evaluate to `0` in `#if`). -/
def singleTarget (fl : Flags) (k : GameNamespace) : Prop := setFlags fl = [k]

/-- The all-four configuration: every flag is set (evaluates to non-zero in
`#if`). -/
def allFour (fl : Flags) : Prop := setFlags fl = priorityOrder

/-- The first set flag in priority order, if any flag is set. -/
def firstSet (fl : Flags) : Option GameNamespace := (setFlags fl).head?

/-- What `zSwitch` does when the game version of `k` is the running one:
it returns the argument at the position of `k`. -/
def zSwitchSelects (z : Addr → Addr → Addr → Addr → Addr) (k : GameNamespace) : Prop :=
  ∀ a b c d : Addr, z a b c d =
    match k with
    | .Gothic_I_Classic => a
    | .Gothic_I_Addon => b
    | .Gothic_II_Classic => c
    | .Gothic_II_Addon => d

instance (fl : Flags) (k : GameNamespace) : Decidable (singleTarget fl k) := by
  unfold singleTarget; infer_instance

instance (fl : Flags) : Decidable (allFour fl) := by
  unfold allFour; infer_instance

instance (v : Int) : Decidable (representable v) := by
  unfold representable; infer_instance

/-! ## Evaluation of a flag in `#if` -/

/-- A flag that is not defined is false in `#if`. -/
theorem ppTrue_none : ppTrue none = false := by
  simp [ppTrue, ppValue, flagValue]

/-- A flag defined as `0` is false in `#if`. -/
theorem ppTrue_zero : ppTrue (some 0) = false := by
  simp [ppTrue, ppValue, flagValue]

/-- A flag that is true in `#if` stands for a non-zero integer. -/
theorem flagValue_ne_zero_of_ppTrue (flag : Option Int) (h : ppTrue flag = true) :
    flagValue flag ≠ 0 := by
  intro h0
  simp [ppTrue, ppValue, h0] at h

/-- For a representable value the `#if` test is the test of the value
itself against zero. -/
theorem ppTrue_of_representable (v : Int) (hv : representable v) :
    ppTrue (some v) = true ↔ v ≠ 0 := by
  obtain ⟨hlo, hhi⟩ := hv
  simp only [ppBits] at hlo hhi
  simp only [ppTrue, ppValue, flagValue, ppBits, Option.getD_some, decide_eq_true_eq]
  constructor
  · intro h h0
    exact h (by simp [h0])
  · intro h hmod
    omega

/-- When every flag stands for a representable value, the set flags are
those that stand for a non-zero integer. -/
theorem setFlags_of_representable (fl : Flags)
    (h : ∀ ns, representable (flagValue (flagOf fl ns))) :
    setFlags fl = priorityOrder.filter (fun ns => decide (flagValue (flagOf fl ns) ≠ 0)) := by
  unfold setFlags
  apply List.filter_congr
  intro ns _
  cases hf : flagOf fl ns with
  | none => simp [ppValue, flagValue]
  | some v =>
    have hv : representable v := by simpa [hf, flagValue] using h ns
    have := ppTrue_of_representable v hv
    simp only [ppTrue, decide_eq_true_eq] at this
    simp only [flagValue, Option.getD_some]
    exact decide_eq_decide.2 this

/-- A non-zero multiple of `2^64` is false in `#if`. -/
theorem ppTrue_wide (n : Int) : ppTrue (some (n * 2 ^ ppBits)) = false := by
  simp [ppTrue, ppValue, flagValue]

/-- The header on flag values that do not fit in 64 bits. With `__G1` as
`2^64` and no other flag defined, no branch is taken. With `__G1` as `2^64`
and the other three as `1`, the branch of `__G1A` is taken, not the first
one. With `__G1` as `2^64` and `__G2` as `1`, the branch of `__G2` is taken.
With `__G1` as `0`, `__G1A` as `2^64` and the other two as `1`, the branch
of `__G2` is taken. -/
theorem SIGNATURE_OF_wide_values :
    (SignatureOf_hpp ⟨some 18446744073709551616, none, none, none⟩ ⟨[], none⟩).SIGNATURE_OF
      = none ∧
    (SignatureOf_hpp ⟨some 18446744073709551616, some 1, some 1, some 1⟩
      ⟨[], none⟩).SIGNATURE_OF = some (singleBody .Gothic_I_Addon) ∧
    (SignatureOf_hpp ⟨some 18446744073709551616, none, some 1, none⟩ ⟨[], none⟩).SIGNATURE_OF
      = some (singleBody .Gothic_II_Classic) ∧
    (SignatureOf_hpp ⟨some 0, some 18446744073709551616, some 1, some 1⟩
      ⟨[], none⟩).SIGNATURE_OF = some (singleBody .Gothic_II_Classic) := by
  decide

/-! ## The definition the header leaves behind -/

theorem setFlags_eq (fl : Flags) :
    setFlags fl =
      (if ppTrue fl.__G1 then [GameNamespace.Gothic_I_Classic] else []) ++
      (if ppTrue fl.__G1A then [GameNamespace.Gothic_I_Addon] else []) ++
      (if ppTrue fl.__G2 then [GameNamespace.Gothic_II_Classic] else []) ++
      (if ppTrue fl.__G2A then [GameNamespace.Gothic_II_Addon] else []) := by
  unfold setFlags priorityOrder
  change List.filter (fun ns => ppTrue (flagOf fl ns)) _ = _
  simp only [List.filter, flagOf]
  cases ppTrue fl.__G1 <;> cases ppTrue fl.__G1A <;> cases ppTrue fl.__G2 <;>
    cases ppTrue fl.__G2A <;> rfl

theorem SIGNATURE_OF_allFour (fl : Flags) (st : PPState) (h : allFour fl) :
    (SignatureOf_hpp fl st).SIGNATURE_OF = some switchBody := by
  unfold allFour at h
  rw [setFlags_eq] at h
  unfold SignatureOf_hpp
  revert h
  cases ppTrue fl.__G1 <;> cases ppTrue fl.__G1A <;> cases ppTrue fl.__G2 <;>
    cases ppTrue fl.__G2A <;> simp [priorityOrder, PPState.define, PPState.undef]

theorem SIGNATURE_OF_not_allFour (fl : Flags) (st : PPState) (h : ¬ allFour fl) :
    (SignatureOf_hpp fl st).SIGNATURE_OF = (firstSet fl).map singleBody := by
  unfold allFour at h
  unfold firstSet
  rw [setFlags_eq] at h ⊢
  unfold SignatureOf_hpp
  revert h
  cases ppTrue fl.__G1 <;> cases ppTrue fl.__G1A <;> cases ppTrue fl.__G2 <;>
    cases ppTrue fl.__G2A <;> simp [priorityOrder, PPState.define, PPState.undef]

theorem singleTarget_not_allFour (fl : Flags) (k : GameNamespace)
    (h : singleTarget fl k) : ¬ allFour fl := by
  unfold singleTarget at h
  unfold allFour
  rw [h]
  simp [priorityOrder]

theorem SIGNATURE_OF_singleTarget (fl : Flags) (k : GameNamespace) (st : PPState)
    (h : singleTarget fl k) :
    (SignatureOf_hpp fl st).SIGNATURE_OF = some (singleBody k) := by
  rw [SIGNATURE_OF_not_allFour fl st (singleTarget_not_allFour fl k h)]
  unfold singleTarget at h
  simp [firstSet, h]

/-! ## The headers the file includes -/

theorem included_eq (fl : Flags) (st : PPState) :
    (SignatureOf_hpp fl st).included =
      st.included ++
      (if ifdef fl.__G1 then [Header.g1_signatures] else []) ++
      (if ifdef fl.__G1A then [Header.g1a_signatures] else []) ++
      (if ifdef fl.__G2 then [Header.g2_signatures] else []) ++
      (if ifdef fl.__G2A then [Header.g2a_signatures] else []) := by
  have hkeep : ∀ (s : PPState) (c1 c2 c3 c4 c5 : Bool),
      (if c1 = true then s.undef.define switchBody
        else if c2 = true then s.undef.define (singleBody .Gothic_I_Classic)
        else if c3 = true then s.undef.define (singleBody .Gothic_I_Addon)
        else if c4 = true then s.undef.define (singleBody .Gothic_II_Classic)
        else if c5 = true then s.undef.define (singleBody .Gothic_II_Addon)
        else s.undef).included = s.included := by
    intro s c1 c2 c3 c4 c5
    cases c1 <;> cases c2 <;> cases c3 <;> cases c4 <;> cases c5 <;> rfl
  unfold SignatureOf_hpp
  simp only [hkeep]
  cases ifdef fl.__G1 <;> cases ifdef fl.__G1A <;> cases ifdef fl.__G2 <;>
    cases ifdef fl.__G2A <;> simp [PPState.include]

theorem headerOf_mem_included (fl : Flags) (st : PPState) (ns : GameNamespace) :
    headerOf ns ∈ (SignatureOf_hpp fl st).included ↔
      headerOf ns ∈ st.included ∨ ifdef (flagOf fl ns) = true := by
  rw [included_eq]
  cases ns <;> simp only [headerOf, flagOf] <;>
    cases ifdef fl.__G1 <;> cases ifdef fl.__G1A <;> cases ifdef fl.__G2 <;>
    cases ifdef fl.__G2A <;> simp

theorem ifdef_of_ppTrue (flag : Option Int) (h : ppTrue flag = true) :
    ifdef flag = true := by
  cases flag with
  | none => simp [ppTrue_none] at h
  | some v => rfl

theorem mem_setFlags (fl : Flags) (ns : GameNamespace) :
    ns ∈ setFlags fl ↔ ppTrue (flagOf fl ns) = true := by
  unfold setFlags priorityOrder
  change ns ∈ List.filter (fun ns => ppTrue (flagOf fl ns)) _ ↔ _
  rw [List.mem_filter]
  cases ns <;> simp

theorem namespaces_subset_setFlags (fl : Flags) (st : PPState) (body : MacroBody)
    (ns : GameNamespace) (hb : (SignatureOf_hpp fl st).SIGNATURE_OF = some body)
    (hn : ns ∈ body.namespaces) : ns ∈ setFlags fl := by
  by_cases h : allFour fl
  · rw [SIGNATURE_OF_allFour fl st h] at hb
    unfold allFour at h
    rw [h]
    cases ns <;> simp [priorityOrder]
  · rw [SIGNATURE_OF_not_allFour fl st h] at hb
    unfold firstSet at hb
    cases hs : setFlags fl with
    | nil => simp [hs] at hb
    | cons k rest =>
      simp [hs] at hb
      subst hb
      simp [singleBody, Expr.namespaces] at hn
      simp [hn]

/-! ## Evaluation of the four arguments in each effect model -/

theorem pick4_apply {α β : Type} (f : α → β) (a b c d : α) (i : Fin 4) :
    pick4 (f a) (f b) (f c) (f d) i = f (pick4 a b c d i) := by
  fin_cases i <;> rfl

theorem mem_order (o : ArgOrder) (i : Fin 4) : i ∈ o.order := by
  rw [o.complete.mem_iff]
  fin_cases i <;> simp

/-- Without effects the argument order does not matter: every listed slot
holds the value of its argument. -/
theorem evalArgs_pure (acts : Fin 4 → Id Addr) (l : List (Fin 4)) (vals : Fin 4 → Addr) :
    evalArgs acts l vals = fun j => if j ∈ l then acts j else vals j := by
  induction l generalizing vals with
  | nil => funext j; simp [evalArgs]
  | cons i rest ih =>
    show evalArgs acts rest (Function.update vals i (acts i)) = _
    rw [ih]
    funext j
    by_cases hj : j ∈ rest
    · simp [hj]
    · by_cases hji : j = i
      · subst hji; simp [hj]
      · simp [hj, hji, Function.update]

/-- With logging stubs the log grows by the calls in the order of
evaluation, and every listed slot holds the value of its argument. -/
theorem evalArgs_traced (v : Fin 4 → Addr) (ev : Fin 4 → Event) (l : List (Fin 4))
    (vals : Fin 4 → Addr) (log : List Event) :
    evalArgs (m := Traced) (fun i log => (v i, log ++ [ev i])) l vals log =
      (fun j => if j ∈ l then v j else vals j, log ++ l.map ev) := by
  induction l generalizing vals log with
  | nil => simp [evalArgs, pure]
  | cons i rest ih =>
    show evalArgs (m := Traced) _ rest (Function.update vals i (v i)) (log ++ [ev i]) = _
    rw [ih]
    refine Prod.ext ?_ (by simp)
    funext j
    by_cases hj : j ∈ rest
    · simp [hj]
    · by_cases hji : j = i
      · subst hji; simp [hj]
      · simp [hj, hji, Function.update]

/-- With fallible arguments, a failure of the whole is the failure of one of
the listed arguments. -/
theorem evalArgs_error {ε : Type} (acts : Fin 4 → Except ε Addr) (l : List (Fin 4))
    (vals : Fin 4 → Addr) (err : ε) (h : evalArgs acts l vals = .error err) :
    ∃ i ∈ l, acts i = .error err := by
  induction l generalizing vals with
  | nil => simp [evalArgs, pure, Except.pure] at h
  | cons i rest ih =>
    cases hi : acts i with
    | error e =>
      simp [evalArgs, hi, bind, Except.bind] at h
      exact ⟨i, by simp, by rw [hi, h]⟩
    | ok a =>
      simp [evalArgs, hi, bind, Except.bind] at h
      obtain ⟨j, hj, hje⟩ := ih _ h
      exact ⟨j, by simp [hj], hje⟩

/-- With fallible arguments that all succeed, the whole succeeds and every
listed slot holds the value of its argument. -/
theorem evalArgs_ok {ε : Type} (acts : Fin 4 → Except ε Addr) (v : Fin 4 → Addr)
    (l : List (Fin 4)) (vals : Fin 4 → Addr) (h : ∀ i ∈ l, acts i = .ok (v i)) :
    evalArgs acts l vals = .ok (fun j => if j ∈ l then v j else vals j) := by
  induction l generalizing vals with
  | nil => simp [evalArgs, pure, Except.pure]
  | cons i rest ih =>
    have hi := h i (by simp)
    simp only [evalArgs, hi, bind, Except.bind]
    rw [ih _ (fun j hj => h j (by simp [hj]))]
    congr 1
    funext j
    by_cases hj : j ∈ rest
    · simp [hj]
    · by_cases hji : j = i
      · subst hji; simp [hj]
      · simp [hj, hji, Function.update]

/-! ## Evaluation of the `zSwitch` expansion in each effect model -/

/-- The expansion of the first branch for the token `name`. -/
theorem expand_switchBody (name : String) :
    expand switchBody name =
      .reinterpret_cast
        (.zSwitch
          (.SignatureToAddress .Gothic_I_Classic name)
          (.SignatureToAddress .Gothic_I_Addon name)
          (.SignatureToAddress .Gothic_II_Classic name)
          (.SignatureToAddress .Gothic_II_Addon name)) := rfl

theorem eval_switch_pure (r : GameNamespace → String → Addr)
    (z : Addr → Addr → Addr → Addr → Addr) (o : ArgOrder) (name : String) :
    eval (pureEnv r z o) (expand switchBody name) =
      z (r .Gothic_I_Classic name) (r .Gothic_I_Addon name)
        (r .Gothic_II_Classic name) (r .Gothic_II_Addon name) := by
  rw [expand_switchBody]
  show z (evalArgs (m := Id) _ o.order (fun _ => 0) 0) (evalArgs (m := Id) _ o.order _ 1)
    (evalArgs (m := Id) _ o.order _ 2) (evalArgs (m := Id) _ o.order _ 3) = _
  rw [evalArgs_pure]
  simp only [mem_order, if_true]
  rfl

theorem eval_switch_traced (r : GameNamespace → String → Addr)
    (z : Addr → Addr → Addr → Addr → Addr) (o : ArgOrder) (name : String)
    (log : List Event) :
    eval (instrumented r z o) (expand switchBody name) log =
      (z (r .Gothic_I_Classic name) (r .Gothic_I_Addon name)
          (r .Gothic_II_Classic name) (r .Gothic_II_Addon name),
        log ++ o.order.map (fun i => Event.resolve (namespaceAt i) name) ++
          [Event.zSwitch (r .Gothic_I_Classic name) (r .Gothic_I_Addon name)
            (r .Gothic_II_Classic name) (r .Gothic_II_Addon name)]) := by
  rw [expand_switchBody]
  have hacts : pick4
      (eval (instrumented r z o) (.SignatureToAddress .Gothic_I_Classic name))
      (eval (instrumented r z o) (.SignatureToAddress .Gothic_I_Addon name))
      (eval (instrumented r z o) (.SignatureToAddress .Gothic_II_Classic name))
      (eval (instrumented r z o) (.SignatureToAddress .Gothic_II_Addon name))
      = fun i log => (r (namespaceAt i) name, log ++ [Event.resolve (namespaceAt i) name]) := by
    funext i
    fin_cases i <;> rfl
  have hargs := evalArgs_traced (fun i => r (namespaceAt i) name)
    (fun i => Event.resolve (namespaceAt i) name) o.order (fun _ => 0) log
  rw [← hacts] at hargs
  show (instrumented r z o).zSwitch
      ((evalArgs (m := Traced) _ o.order (fun _ => 0) log).1 0)
      ((evalArgs (m := Traced) _ o.order (fun _ => 0) log).1 1)
      ((evalArgs (m := Traced) _ o.order (fun _ => 0) log).1 2)
      ((evalArgs (m := Traced) _ o.order (fun _ => 0) log).1 3)
      (evalArgs (m := Traced) _ o.order (fun _ => 0) log).2 = _
  rw [hargs]
  simp only [mem_order, if_true]
  rfl

theorem eval_switch_fallible_error {ε : Type} (r : GameNamespace → String → Except ε Addr)
    (z : Addr → Addr → Addr → Addr → Addr) (o : ArgOrder) (name : String) (err : ε)
    (h : eval (fallibleEnv r z o) (expand switchBody name) = .error err) :
    ∃ ns, r ns name = .error err := by
  rw [expand_switchBody] at h
  have hacts : pick4
      (eval (fallibleEnv r z o) (.SignatureToAddress .Gothic_I_Classic name))
      (eval (fallibleEnv r z o) (.SignatureToAddress .Gothic_I_Addon name))
      (eval (fallibleEnv r z o) (.SignatureToAddress .Gothic_II_Classic name))
      (eval (fallibleEnv r z o) (.SignatureToAddress .Gothic_II_Addon name))
      = fun i => r (namespaceAt i) name := by
    funext i
    fin_cases i <;> rfl
  simp only [eval] at h hacts
  rw [hacts] at h
  cases hargs : evalArgs (fun i => r (namespaceAt i) name) (fallibleEnv r z o).argOrder.order
      (fun _ => 0) with
  | error e =>
    rw [hargs] at h
    simp [bind, Except.bind] at h
    obtain ⟨i, -, hi⟩ := evalArgs_error _ _ _ _ hargs
    exact ⟨namespaceAt i, by rw [hi, h]⟩
  | ok vals =>
    rw [hargs] at h
    simp [bind, Except.bind, fallibleEnv] at h

theorem eval_switch_fallible_ok {ε : Type} (r : GameNamespace → String → Except ε Addr)
    (z : Addr → Addr → Addr → Addr → Addr) (o : ArgOrder) (name : String)
    (v : GameNamespace → Addr) (h : ∀ ns, r ns name = .ok (v ns)) :
    eval (fallibleEnv r z o) (expand switchBody name) =
      .ok (z (v .Gothic_I_Classic) (v .Gothic_I_Addon)
        (v .Gothic_II_Classic) (v .Gothic_II_Addon)) := by
  rw [expand_switchBody]
  have hacts : pick4
      (eval (fallibleEnv r z o) (.SignatureToAddress .Gothic_I_Classic name))
      (eval (fallibleEnv r z o) (.SignatureToAddress .Gothic_I_Addon name))
      (eval (fallibleEnv r z o) (.SignatureToAddress .Gothic_II_Classic name))
      (eval (fallibleEnv r z o) (.SignatureToAddress .Gothic_II_Addon name))
      = fun i => r (namespaceAt i) name := by
    funext i
    fin_cases i <;> rfl
  simp only [eval] at hacts ⊢
  rw [hacts, evalArgs_ok _ (fun i => v (namespaceAt i)) _ _ (fun i _ => h (namespaceAt i))]
  simp only [bind, Except.bind, fallibleEnv, mem_order, if_true]
  rfl

/-! ## Claims -/

/-- C1. In the single-target configuration of `k` (only the flag of `k` has
a non-zero value, as `#if` evaluates it), for every identifier token `what`, the header leaves
`SIGNATURE_OF` defined, `SIGNATURE_OF(what)` expands to the cast of the
`SignatureToAddress` call of `k` on the string that spells `what`, and its
value is the result of that resolver on that string, unchanged by the cast,
in every effect model of the collaborators. -/
theorem C1_single_target_value {m : Type → Type} [Monad m] (env : Env m)
    (fl : Flags) (k : GameNamespace) (st : PPState) (what : String)
    (h : singleTarget fl k) :
    useSite (SignatureOf_hpp fl st) what
        = some (.reinterpret_cast (.SignatureToAddress k what)) ∧
      eval env (.reinterpret_cast (.SignatureToAddress k what))
        = env.SignatureToAddress k what := by
  refine ⟨?_, rfl⟩
  simp [useSite, SIGNATURE_OF_singleTarget fl k st h, singleBody, expand, Expr.subst]

/-- Witness for C1: only `__G2` is defined, with value `1`; the use
`SIGNATURE_OF(oCNpc_OnDamage)` is the resolver of `Gothic_II_Classic` on the
string `"oCNpc_OnDamage"`. -/
theorem C1_single_target_value_witness :
    singleTarget ⟨none, none, some 1, none⟩ .Gothic_II_Classic ∧
    (useSite (SignatureOf_hpp ⟨none, none, some 1, none⟩ ⟨[], none⟩) "oCNpc_OnDamage"
        = some (.reinterpret_cast (.SignatureToAddress .Gothic_II_Classic "oCNpc_OnDamage")) ∧
      eval (pureEnv (fun _ name => name.length) (fun a _ _ _ => a) ArgOrder.leftToRight)
          (.reinterpret_cast (.SignatureToAddress .Gothic_II_Classic "oCNpc_OnDamage"))
        = (pureEnv (fun _ name => name.length) (fun a _ _ _ => a)
            ArgOrder.leftToRight).SignatureToAddress .Gothic_II_Classic "oCNpc_OnDamage") :=
  ⟨by decide, C1_single_target_value _ _ _ _ _ (by decide)⟩

/-- C2. In the all-four configuration, for every name, every pair of stubs
and every order of argument evaluation, one evaluation of
`SIGNATURE_OF(name)` adds to the call log a permutation of the four resolver
calls, one for each namespace and each with the string that spells the
name, followed by the one call of `zSwitch` on the four resolver results;
this holds whatever `zSwitch` returns. -/
theorem C2_all_four_calls_each_resolver_once (r : GameNamespace → String → Addr)
    (z : Addr → Addr → Addr → Addr → Addr) (o : ArgOrder)
    (fl : Flags) (st : PPState) (name : String) (log : List Event)
    (h : allFour fl) :
    ∃ e calls, useSite (SignatureOf_hpp fl st) name = some e ∧
      calls.Perm
        [Event.resolve .Gothic_I_Classic name, Event.resolve .Gothic_I_Addon name,
          Event.resolve .Gothic_II_Classic name, Event.resolve .Gothic_II_Addon name] ∧
      eval (instrumented r z o) e log =
        (z (r .Gothic_I_Classic name) (r .Gothic_I_Addon name)
            (r .Gothic_II_Classic name) (r .Gothic_II_Addon name),
          log ++ calls ++
            [Event.zSwitch (r .Gothic_I_Classic name) (r .Gothic_I_Addon name)
              (r .Gothic_II_Classic name) (r .Gothic_II_Addon name)]) := by
  refine ⟨expand switchBody name,
    o.order.map (fun i => Event.resolve (namespaceAt i) name), ?_, ?_, ?_⟩
  · simp [useSite, SIGNATURE_OF_allFour fl st h]
  · exact o.complete.map _
  · exact eval_switch_traced r z o name log

/-- Witness for C2: all four flags defined as `1`, arguments evaluated from
right to left, a `zSwitch` stub that returns its third argument. -/
theorem C2_all_four_calls_each_resolver_once_witness :
    allFour ⟨some 1, some 1, some 1, some 1⟩ ∧
    ∃ e calls,
      useSite (SignatureOf_hpp ⟨some 1, some 1, some 1, some 1⟩ ⟨[], none⟩) "oCNpc_OnDamage"
        = some e ∧
      calls.Perm
        [Event.resolve .Gothic_I_Classic "oCNpc_OnDamage",
          Event.resolve .Gothic_I_Addon "oCNpc_OnDamage",
          Event.resolve .Gothic_II_Classic "oCNpc_OnDamage",
          Event.resolve .Gothic_II_Addon "oCNpc_OnDamage"] ∧
      eval (instrumented (fun _ name => name.length) (fun _ _ c _ => c)
          ArgOrder.rightToLeft) e [] =
        ((fun _ _ c _ => c)
            ((fun _ name => name.length) GameNamespace.Gothic_I_Classic "oCNpc_OnDamage")
            ((fun _ name => name.length) GameNamespace.Gothic_I_Addon "oCNpc_OnDamage")
            ((fun _ name => name.length) GameNamespace.Gothic_II_Classic "oCNpc_OnDamage")
            ((fun _ name => name.length) GameNamespace.Gothic_II_Addon "oCNpc_OnDamage"),
          [] ++ calls ++
            [Event.zSwitch
              ((fun _ name => name.length) GameNamespace.Gothic_I_Classic "oCNpc_OnDamage")
              ((fun _ name => name.length) GameNamespace.Gothic_I_Addon "oCNpc_OnDamage")
              ((fun _ name => name.length) GameNamespace.Gothic_II_Classic "oCNpc_OnDamage")
              ((fun _ name => name.length) GameNamespace.Gothic_II_Addon "oCNpc_OnDamage")]) :=
  ⟨by decide,
    C2_all_four_calls_each_resolver_once (fun _ name => name.length) (fun _ _ c _ => c)
      ArgOrder.rightToLeft ⟨some 1, some 1, some 1, some 1⟩ ⟨[], none⟩ "oCNpc_OnDamage" []
      (by decide)⟩

/-- C3. The multi-target build agrees with the single-target build of the
running version: with resolvers that are pure functions of the name, and a
`zSwitch` that returns the argument at the position of the running version
`k`, the value of `SIGNATURE_OF(name)` in the all-four configuration equals
its value in the single-target configuration of `k`. -/
theorem C3_multi_target_agrees_with_single_target (r : GameNamespace → String → Addr)
    (z z1 : Addr → Addr → Addr → Addr → Addr) (o o1 : ArgOrder)
    (flAll flK : Flags) (k : GameNamespace) (stAll stK : PPState) (name : String)
    (hall : allFour flAll) (hk : singleTarget flK k) (hz : zSwitchSelects z k) :
    ∃ eAll eK, useSite (SignatureOf_hpp flAll stAll) name = some eAll ∧
      useSite (SignatureOf_hpp flK stK) name = some eK ∧
      eval (pureEnv r z o) eAll = eval (pureEnv r z1 o1) eK := by
  refine ⟨expand switchBody name, expand (singleBody k) name, ?_, ?_, ?_⟩
  · simp [useSite, SIGNATURE_OF_allFour flAll stAll hall]
  · simp [useSite, SIGNATURE_OF_singleTarget flK k stK hk]
  · rw [eval_switch_pure, hz]
    cases k <;> rfl

/-- Witness for C3: the running version is Gothic II with the addon and
`zSwitch` returns its fourth argument. -/
theorem C3_multi_target_agrees_with_single_target_witness :
    allFour ⟨some 1, some 1, some 1, some 1⟩ ∧
    singleTarget ⟨none, none, none, some 1⟩ .Gothic_II_Addon ∧
    zSwitchSelects (fun _ _ _ d => d) .Gothic_II_Addon ∧
    ∃ eAll eK,
      useSite (SignatureOf_hpp ⟨some 1, some 1, some 1, some 1⟩ ⟨[], none⟩) "oCNpc_OnDamage"
        = some eAll ∧
      useSite (SignatureOf_hpp ⟨none, none, none, some 1⟩ ⟨[], none⟩) "oCNpc_OnDamage"
        = some eK ∧
      eval (pureEnv (fun ns name => if ns = .Gothic_II_Addon then name.length else 0)
          (fun _ _ _ d => d) ArgOrder.leftToRight) eAll
        = eval (pureEnv (fun ns name => if ns = .Gothic_II_Addon then name.length else 0)
          (fun a _ _ _ => a) ArgOrder.leftToRight) eK :=
  ⟨by decide, by decide, fun _ _ _ _ => rfl,
    C3_multi_target_agrees_with_single_target
      (fun ns name => if ns = .Gothic_II_Addon then name.length else 0)
      (fun _ _ _ d => d) (fun a _ _ _ => a) ArgOrder.leftToRight ArgOrder.leftToRight
      ⟨some 1, some 1, some 1, some 1⟩ ⟨none, none, none, some 1⟩ .Gothic_II_Addon
      ⟨[], none⟩ ⟨[], none⟩ "oCNpc_OnDamage"
      (by decide) (by decide) (fun _ _ _ _ => rfl)⟩

/-- C4, as stated, fails: with exactly the two flags `__G1A` and `__G2A` set
(both defined as `1`) the header leaves `SIGNATURE_OF` defined, as the
resolver call of `Gothic_I_Addon`, and a use of it expands. -/
theorem C4_counterexample :
    (setFlags ⟨none, some 1, none, some 1⟩).length = 2 ∧
    (SignatureOf_hpp ⟨none, some 1, none, some 1⟩ ⟨[], none⟩).SIGNATURE_OF ≠ none ∧
    useSite (SignatureOf_hpp ⟨none, some 1, none, some 1⟩ ⟨[], none⟩) "oCNpc_OnDamage"
      = some (.reinterpret_cast (.SignatureToAddress .Gothic_I_Addon "oCNpc_OnDamage")) := by
  decide

/-- C4, amended. For every flag configuration in which exactly two or exactly
three of the four flags are set (non-zero as `#if` evaluates them), the
header accepts the build silently: `SIGNATURE_OF` is defined after the
header, as the single resolver call of one of the set flags (the first in
priority order), so that a use of it expands to that call. -/
theorem C4_partial_combination_accepted (fl : Flags) (st : PPState) (what : String)
    (h : (setFlags fl).length = 2 ∨ (setFlags fl).length = 3) :
    ∃ k, k ∈ setFlags fl ∧ firstSet fl = some k ∧
      (SignatureOf_hpp fl st).SIGNATURE_OF = some (singleBody k) ∧
      useSite (SignatureOf_hpp fl st) what
        = some (.reinterpret_cast (.SignatureToAddress k what)) := by
  have hne : ¬ allFour fl := by
    unfold allFour
    intro hall
    rw [hall] at h
    simp [priorityOrder] at h
  have hdef := SIGNATURE_OF_not_allFour fl st hne
  unfold firstSet at hdef ⊢
  cases hs : setFlags fl with
  | nil => simp [hs] at h
  | cons k rest =>
    refine ⟨k, by simp, by simp, ?_, ?_⟩
    · simpa [hs] using hdef
    · simp [useSite, hdef, hs, singleBody, expand, Expr.subst]

/-- Witness for the amended C4: `__G1`, `__G2` and `__G2A` set (three
flags). -/
theorem C4_partial_combination_accepted_witness :
    ((setFlags ⟨some 1, none, some 2, some (-1)⟩).length = 2 ∨
      (setFlags ⟨some 1, none, some 2, some (-1)⟩).length = 3) ∧
    ∃ k, k ∈ setFlags ⟨some 1, none, some 2, some (-1)⟩ ∧
      firstSet ⟨some 1, none, some 2, some (-1)⟩ = some k ∧
      (SignatureOf_hpp ⟨some 1, none, some 2, some (-1)⟩ ⟨[], none⟩).SIGNATURE_OF
        = some (singleBody k) ∧
      useSite (SignatureOf_hpp ⟨some 1, none, some 2, some (-1)⟩ ⟨[], none⟩) "oCNpc_OnDamage"
        = some (.reinterpret_cast (.SignatureToAddress k "oCNpc_OnDamage")) :=
  ⟨by decide, C4_partial_combination_accepted _ _ _ (by decide)⟩

/-- C5. When no flag is active (each flag is undefined or evaluates to
`0` in `#if`; in particular when each flag is undefined or has the value
`0`), `SIGNATURE_OF` has no definition after the header, whatever definition
it had before, and no use of it expands; hence a use of `SIGNATURE_OF`
expands after the header only if at least one flag is active: it evaluates
to non-zero in `#if`, and so stands for a non-zero integer. -/
theorem C5_no_flag_no_definition (fl : Flags) (st : PPState) (what : String) :
    (setFlags fl = [] →
      (SignatureOf_hpp fl st).SIGNATURE_OF = none ∧
      useSite (SignatureOf_hpp fl st) what = none) ∧
    ((∀ ns, flagValue (flagOf fl ns) = 0) →
      (SignatureOf_hpp fl st).SIGNATURE_OF = none ∧
      useSite (SignatureOf_hpp fl st) what = none) ∧
    (∀ e, useSite (SignatureOf_hpp fl st) what = some e →
      setFlags fl ≠ [] ∧ ∃ ns, flagValue (flagOf fl ns) ≠ 0) := by
  have key : setFlags fl = [] → (SignatureOf_hpp fl st).SIGNATURE_OF = none := by
    intro h0
    have hne : ¬ allFour fl := by
      unfold allFour
      rw [h0]
      simp [priorityOrder]
    rw [SIGNATURE_OF_not_allFour fl st hne]
    simp [firstSet, h0]
  have hraw : (∀ ns, flagValue (flagOf fl ns) = 0) → setFlags fl = [] := by
    intro hall
    rw [List.eq_nil_iff_forall_not_mem]
    intro ns hns
    exact flagValue_ne_zero_of_ppTrue _ ((mem_setFlags fl ns).1 hns) (hall ns)
  refine ⟨fun h0 => ⟨key h0, by simp [useSite, key h0]⟩,
    fun hall => ⟨key (hraw hall), by simp [useSite, key (hraw hall)]⟩, ?_⟩
  intro e he
  have hne : setFlags fl ≠ [] := by
    intro h0
    simp [useSite, key h0] at he
  refine ⟨hne, ?_⟩
  obtain ⟨ns, hns⟩ := List.exists_mem_of_ne_nil _ hne
  exact ⟨ns, flagValue_ne_zero_of_ppTrue _ ((mem_setFlags fl ns).1 hns)⟩

/-- Witness for C5: `__G1A` has the value `0`, the other flags are
undefined, and `SIGNATURE_OF` had a definition before the header. -/
theorem C5_no_flag_no_definition_witness :
    setFlags ⟨none, some 0, none, none⟩ = [] ∧
    (SignatureOf_hpp ⟨none, some 0, none, none⟩ ⟨[], some switchBody⟩).SIGNATURE_OF = none ∧
    useSite (SignatureOf_hpp ⟨none, some 0, none, none⟩ ⟨[], some switchBody⟩)
      "oCNpc_OnDamage" = none :=
  ⟨by decide,
    (C5_no_flag_no_definition ⟨none, some 0, none, none⟩ ⟨[], some switchBody⟩
      "oCNpc_OnDamage").1 (by decide)⟩

/-- C6. The selector adds no failure of its own. With resolvers that return
an address or an error and a total `zSwitch`: in a single-target
configuration the result of `SIGNATURE_OF(name)` is the result of the
selected resolver on the name, so it fails exactly when that resolver fails
and otherwise is that resolver's address unchanged; in the all-four
configuration a failure of `SIGNATURE_OF(name)` is the failure of one of the
resolvers the expansion invokes, and when all four resolvers succeed the
result is the value `zSwitch` returns on their addresses. -/
theorem C6_no_failure_of_its_own {ε : Type} (r : GameNamespace → String → Except ε Addr)
    (z : Addr → Addr → Addr → Addr → Addr) (o : ArgOrder)
    (fl : Flags) (st : PPState) (name : String) :
    (∀ k, singleTarget fl k →
      ∃ e, useSite (SignatureOf_hpp fl st) name = some e ∧
        eval (fallibleEnv r z o) e = r k name ∧
        (∀ err, eval (fallibleEnv r z o) e = .error err ↔ r k name = .error err) ∧
        (∀ a, r k name = .ok a → eval (fallibleEnv r z o) e = .ok a)) ∧
    (allFour fl →
      ∃ e, useSite (SignatureOf_hpp fl st) name = some e ∧
        (∀ err, eval (fallibleEnv r z o) e = .error err →
          ∃ ns, ns ∈ e.namespaces ∧ r ns name = .error err) ∧
        (∀ v : GameNamespace → Addr, (∀ ns, r ns name = .ok (v ns)) →
          eval (fallibleEnv r z o) e =
            .ok (z (v .Gothic_I_Classic) (v .Gothic_I_Addon)
              (v .Gothic_II_Classic) (v .Gothic_II_Addon)))) := by
  refine ⟨?_, ?_⟩
  · intro k hk
    have heq : eval (fallibleEnv r z o) (expand (singleBody k) name) = r k name := rfl
    refine ⟨expand (singleBody k) name, ?_, heq, ?_, ?_⟩
    · simp [useSite, SIGNATURE_OF_singleTarget fl k st hk]
    · intro err
      rw [heq]
    · intro a ha
      rw [heq, ha]
  · intro hall
    refine ⟨expand switchBody name, ?_, ?_, ?_⟩
    · simp [useSite, SIGNATURE_OF_allFour fl st hall]
    · intro err herr
      obtain ⟨ns, hns⟩ := eval_switch_fallible_error r z o name err herr
      refine ⟨ns, ?_, hns⟩
      cases ns <;> simp [expand_switchBody, Expr.namespaces]
    · intro v hv
      exact eval_switch_fallible_ok r z o name v hv

/-- Witness for C6: only `__G1A` is set and its resolver fails on the name;
the use fails with the same error. -/
theorem C6_no_failure_of_its_own_witness :
    singleTarget ⟨none, some 1, none, none⟩ .Gothic_I_Addon ∧
    ∃ e, useSite (SignatureOf_hpp ⟨none, some 1, none, none⟩ ⟨[], none⟩) "oCNpc_OnDamage"
        = some e ∧
      eval (fallibleEnv (fun _ _ => (Except.error "no match" : Except String Addr))
          (fun a _ _ _ => a) ArgOrder.leftToRight) e
        = Except.error "no match" :=
  ⟨by decide,
    Exists.elim
      ((C6_no_failure_of_its_own (fun _ _ => (Except.error "no match" : Except String Addr))
        (fun a _ _ _ => a) ArgOrder.leftToRight ⟨none, some 1, none, none⟩ ⟨[], none⟩
        "oCNpc_OnDamage").1 .Gothic_I_Addon (by decide))
      (fun e he => ⟨e, he.1, he.2.1⟩)⟩

/-- C7. In the single-target configuration of `k`, one evaluation of
`SIGNATURE_OF(name)` adds exactly one call to the call log, the
`SignatureToAddress` of `k` on the string that spells the name: no resolver
of another namespace is called and `zSwitch` is not called. The expansion is
the same whatever the preprocessor state before the header was, and a second
use with the same name adds the same call again, whatever the log holds. -/
theorem C7_single_target_one_call (r : GameNamespace → String → Addr)
    (z : Addr → Addr → Addr → Addr → Addr) (o : ArgOrder)
    (fl : Flags) (k : GameNamespace) (st st1 : PPState) (name : String)
    (log : List Event) (h : singleTarget fl k) :
    ∃ e, useSite (SignatureOf_hpp fl st) name = some e ∧
      useSite (SignatureOf_hpp fl st1) name = some e ∧
      e.namespaces = [k] ∧ e.callsZSwitch = false ∧
      eval (instrumented r z o) e log = (r k name, log ++ [Event.resolve k name]) ∧
      (eval (instrumented r z o) e >>= fun _ => eval (instrumented r z o) e) log
        = (r k name, log ++ [Event.resolve k name, Event.resolve k name]) := by
  refine ⟨expand (singleBody k) name, ?_, ?_, rfl, rfl, rfl, ?_⟩
  · simp [useSite, SIGNATURE_OF_singleTarget fl k st h]
  · simp [useSite, SIGNATURE_OF_singleTarget fl k st1 h]
  · show (r k name, (log ++ [Event.resolve k name]) ++ [Event.resolve k name]) = _
    simp

/-- Witness for C7: only `__G1` is set, `SIGNATURE_OF` had a definition
before the header at one use-site and none at the other. -/
theorem C7_single_target_one_call_witness :
    singleTarget ⟨some 1, none, none, none⟩ .Gothic_I_Classic ∧
    ∃ e, useSite (SignatureOf_hpp ⟨some 1, none, none, none⟩ ⟨[], none⟩) "oCNpc_OnDamage"
        = some e ∧
      useSite (SignatureOf_hpp ⟨some 1, none, none, none⟩ ⟨[], some switchBody⟩)
        "oCNpc_OnDamage" = some e ∧
      e.namespaces = [.Gothic_I_Classic] ∧ e.callsZSwitch = false ∧
      eval (instrumented (fun _ name => name.length) (fun a _ _ _ => a)
          ArgOrder.leftToRight) e []
        = ((fun _ name => name.length) GameNamespace.Gothic_I_Classic "oCNpc_OnDamage",
            [] ++ [Event.resolve .Gothic_I_Classic "oCNpc_OnDamage"]) ∧
      (eval (instrumented (fun _ name => name.length) (fun a _ _ _ => a)
          ArgOrder.leftToRight) e >>=
        fun _ => eval (instrumented (fun _ name => name.length) (fun a _ _ _ => a)
          ArgOrder.leftToRight) e) []
        = ((fun _ name => name.length) GameNamespace.Gothic_I_Classic "oCNpc_OnDamage",
            [] ++ [Event.resolve .Gothic_I_Classic "oCNpc_OnDamage",
              Event.resolve .Gothic_I_Classic "oCNpc_OnDamage"]) :=
  ⟨by decide,
    C7_single_target_one_call (fun _ name => name.length) (fun a _ _ _ => a)
      ArgOrder.leftToRight ⟨some 1, none, none, none⟩ .Gothic_I_Classic ⟨[], none⟩
      ⟨[], some switchBody⟩ "oCNpc_OnDamage" [] (by decide)⟩

/-- C8. For every flag configuration in which at least one flag is non-zero
but not all four are (non-zero as `#if` evaluates the flag), `SIGNATURE_OF(name)` resolves through the first
non-zero flag `k` in the priority order `__G1`, `__G1A`, `__G2`, `__G2A`,
whatever other flags are set: the definition is the single resolver call of
`k`, the use expands to it, and its value is the result of the resolver of
`k` on the name. -/
theorem C8_first_set_flag_wins {m : Type → Type} [Monad m] (env : Env m)
    (fl : Flags) (k : GameNamespace) (st : PPState) (name : String)
    (hfirst : firstSet fl = some k) (hnot : ¬ allFour fl) :
    (SignatureOf_hpp fl st).SIGNATURE_OF = some (singleBody k) ∧
    useSite (SignatureOf_hpp fl st) name
      = some (.reinterpret_cast (.SignatureToAddress k name)) ∧
    eval env (.reinterpret_cast (.SignatureToAddress k name))
      = env.SignatureToAddress k name := by
  have hdef := SIGNATURE_OF_not_allFour fl st hnot
  rw [hfirst] at hdef
  refine ⟨by simpa using hdef, ?_, rfl⟩
  simp [useSite, hdef, singleBody, expand, Expr.subst]

/-- Witness for C8: the three flags `__G1A`, `__G2` and `__G2A` set resolve
through `Gothic_I_Addon`. -/
theorem C8_first_set_flag_wins_witness :
    firstSet ⟨none, some 1, some 1, some 1⟩ = some .Gothic_I_Addon ∧
    ¬ allFour ⟨none, some 1, some 1, some 1⟩ ∧
    (SignatureOf_hpp ⟨none, some 1, some 1, some 1⟩ ⟨[], none⟩).SIGNATURE_OF
      = some (singleBody .Gothic_I_Addon) ∧
    firstSet ⟨none, some 1, none, some 1⟩ = some .Gothic_I_Addon ∧
    ¬ allFour ⟨none, some 1, none, some 1⟩ ∧
    (SignatureOf_hpp ⟨none, some 1, none, some 1⟩ ⟨[], none⟩).SIGNATURE_OF
      = some (singleBody .Gothic_I_Addon) :=
  ⟨by decide, by decide,
    (C8_first_set_flag_wins
      (pureEnv (fun _ name => name.length) (fun a _ _ _ => a) ArgOrder.leftToRight)
      ⟨none, some 1, some 1, some 1⟩ .Gothic_I_Addon ⟨[], none⟩ "oCNpc_OnDamage"
      (by decide) (by decide)).1,
    by decide, by decide,
    (C8_first_set_flag_wins
      (pureEnv (fun _ name => name.length) (fun a _ _ _ => a) ArgOrder.leftToRight)
      ⟨none, some 1, none, some 1⟩ .Gothic_I_Addon ⟨[], none⟩ "oCNpc_OnDamage"
      (by decide) (by decide)).1⟩

/-- C9. For every flag configuration (each flag undefined or defined with an
integer value) and every game namespace that the definition of
`SIGNATURE_OF` left by the header refers to: the flag of that namespace is
non-zero (it stands for a non-zero integer and evaluates to non-zero in
`#if`), hence defined, and the signatures header of that namespace is among
the headers included by this file. -/
theorem C9_referenced_namespace_included (fl : Flags) (before : Option MacroBody)
    (body : MacroBody) (ns : GameNamespace)
    (hbody : (SignatureOf_hpp fl ⟨[], before⟩).SIGNATURE_OF = some body)
    (href : ns ∈ body.namespaces) :
    flagValue (flagOf fl ns) ≠ 0 ∧ ppValue (flagOf fl ns) ≠ 0 ∧
    ifdef (flagOf fl ns) = true ∧
    headerOf ns ∈ (SignatureOf_hpp fl ⟨[], before⟩).included := by
  have hset := (mem_setFlags fl ns).1 (namespaces_subset_setFlags fl _ body ns hbody href)
  have hdef := ifdef_of_ppTrue _ hset
  refine ⟨flagValue_ne_zero_of_ppTrue _ hset, by simpa [ppTrue] using hset, hdef, ?_⟩
  rw [headerOf_mem_included]
  exact Or.inr hdef

/-- Witness for C9: all four flags set, the definition refers to
`Gothic_II_Addon`, and `g2a_signatures.hpp` was included. -/
theorem C9_referenced_namespace_included_witness :
    (SignatureOf_hpp ⟨some 1, some 1, some 1, some 1⟩ ⟨[], none⟩).SIGNATURE_OF
      = some switchBody ∧
    GameNamespace.Gothic_II_Addon ∈ switchBody.namespaces ∧
    (flagValue (flagOf ⟨some 1, some 1, some 1, some 1⟩ .Gothic_II_Addon) ≠ 0 ∧
      ppValue (flagOf ⟨some 1, some 1, some 1, some 1⟩ .Gothic_II_Addon) ≠ 0 ∧
      ifdef (flagOf ⟨some 1, some 1, some 1, some 1⟩ .Gothic_II_Addon) = true ∧
      headerOf .Gothic_II_Addon
        ∈ (SignatureOf_hpp ⟨some 1, some 1, some 1, some 1⟩ ⟨[], none⟩).included) :=
  ⟨by decide, by decide,
    C9_referenced_namespace_included ⟨some 1, some 1, some 1, some 1⟩ none switchBody
      .Gothic_II_Addon (by decide) (by decide)⟩

/-- C10. Inclusion and selection use different tests. (1) The signatures
header of a game namespace is included by this file if and only if its flag
is defined, whatever its value. (2) Selection depends on the flags only
through which of them are non-zero as `#if` evaluates them: the definition
is the `zSwitch` body when all four are non-zero and otherwise the single
resolver call of the first non-zero flag, if there is one. (3) A flag defined as `0` has its header included, and
the definition left by the header never refers to its namespace. (4) With
all four flags defined and one of them equal to `0`, the `zSwitch` body is
not chosen and the definition is the single resolver call of the first
non-zero flag. -/
theorem C10_inclusion_and_selection_tests (fl : Flags) (before : Option MacroBody)
    (ns : GameNamespace) :
    (headerOf ns ∈ (SignatureOf_hpp fl ⟨[], before⟩).included ↔ (flagOf fl ns).isSome = true) ∧
    ((SignatureOf_hpp fl ⟨[], before⟩).SIGNATURE_OF =
      if setFlags fl = priorityOrder then some switchBody
      else (firstSet fl).map singleBody) ∧
    (flagOf fl ns = some 0 →
      headerOf ns ∈ (SignatureOf_hpp fl ⟨[], before⟩).included ∧
      ∀ body, (SignatureOf_hpp fl ⟨[], before⟩).SIGNATURE_OF = some body →
        ns ∉ body.namespaces) ∧
    ((∀ j, (flagOf fl j).isSome = true) → (∃ j, flagOf fl j = some 0) →
      (SignatureOf_hpp fl ⟨[], before⟩).SIGNATURE_OF ≠ some switchBody ∧
      (SignatureOf_hpp fl ⟨[], before⟩).SIGNATURE_OF = (firstSet fl).map singleBody) := by
  have hzero : ∀ j, flagOf fl j = some 0 → ¬ allFour fl := by
    intro j hj hall
    have hmem : j ∈ setFlags fl := by
      unfold allFour at hall
      rw [hall]
      cases j <;> simp [priorityOrder]
    have := (mem_setFlags fl j).1 hmem
    simp [hj, ppTrue_zero] at this
  refine ⟨?_, ?_, ?_, ?_⟩
  · rw [headerOf_mem_included]
    simp [ifdef]
  · by_cases h : allFour fl
    · rw [SIGNATURE_OF_allFour fl _ h]
      exact (if_pos h).symm
    · rw [SIGNATURE_OF_not_allFour fl _ h]
      exact (if_neg h).symm
  · intro h0
    refine ⟨?_, ?_⟩
    · rw [headerOf_mem_included]
      simp [ifdef, h0]
    · intro body hbody href
      have := (mem_setFlags fl ns).1 (namespaces_subset_setFlags fl _ body ns hbody href)
      simp [h0, ppTrue_zero] at this
  · rintro - ⟨j, hj⟩
    have hne := hzero j hj
    rw [SIGNATURE_OF_not_allFour fl _ hne]
    refine ⟨?_, rfl⟩
    cases firstSet fl with
    | none => simp
    | some k => simp [singleBody, switchBody]

/-- Witness for C10: all four flags are defined and `__G1` is `0`; the header
`g1_signatures.hpp` is included, the `zSwitch` body is not chosen and
the definition is the resolver call of `Gothic_I_Addon`. -/
theorem C10_inclusion_and_selection_tests_witness :
    flagOf ⟨some 0, some 1, some 1, some 1⟩ .Gothic_I_Classic = some 0 ∧
    (∀ j, (flagOf ⟨some 0, some 1, some 1, some 1⟩ j).isSome = true) ∧
    headerOf .Gothic_I_Classic
      ∈ (SignatureOf_hpp ⟨some 0, some 1, some 1, some 1⟩ ⟨[], none⟩).included ∧
    (SignatureOf_hpp ⟨some 0, some 1, some 1, some 1⟩ ⟨[], none⟩).SIGNATURE_OF
      ≠ some switchBody ∧
    (SignatureOf_hpp ⟨some 0, some 1, some 1, some 1⟩ ⟨[], none⟩).SIGNATURE_OF
      = (firstSet ⟨some 0, some 1, some 1, some 1⟩).map singleBody ∧
    firstSet ⟨some 0, some 1, some 1, some 1⟩ = some .Gothic_I_Addon :=
  ⟨rfl, fun j => by cases j <;> rfl,
    ((C10_inclusion_and_selection_tests ⟨some 0, some 1, some 1, some 1⟩ none
      .Gothic_I_Classic).2.2.1 rfl).1,
    ((C10_inclusion_and_selection_tests ⟨some 0, some 1, some 1, some 1⟩ none
      .Gothic_I_Classic).2.2.2 (fun j => by cases j <;> rfl)
      ⟨.Gothic_I_Classic, rfl⟩).1,
    ((C10_inclusion_and_selection_tests ⟨some 0, some 1, some 1, some 1⟩ none
      .Gothic_I_Classic).2.2.2 (fun j => by cases j <;> rfl)
      ⟨.Gothic_I_Classic, rfl⟩).2,
    by decide⟩

end SignatureOf
